import Mathlib

/-!
# K-Word round/answer engine — verification of the specification against `src/src/js/local.js`

This file shallowly embeds the core logic of the K-Word quiz game
(the variant of `local.js` that the specification and claims reference:
`sanitizeText`, `checkAnswer`, `updateStats`, `recordAttempt`,
`getCurrentOrNewEntry`, `clearCurrentEntry`, `getRandomEntry`) and proves or
refutes the frozen claims about it.

JavaScript strings are modelled as lists of Unicode code points (`List Nat`).
The Unicode-dependent primitives used by `sanitizeText`
(`String.prototype.trim`, `toLowerCase`, `normalize('NFD')`, and the
character classes `\p{L}`/`\p{N}`) are modelled exactly on the fragment of
Unicode the program exercises — ASCII, the Latin-1 supplement, the combining
diacritical marks block U+0300–U+036F, and the Hangul blocks (conjoining
jamo U+1100–U+11FF and precomposed syllables U+AC00–U+D7A3, with the
algorithmic NFD decomposition of the latter) — and act as the identity
outside that fragment.
-/

/-- A JavaScript string, modelled as its list of Unicode code points. -/
abbrev JStr := List Nat

/-- The JavaScript `String.prototype.trim` whitespace set: WhiteSpace and
LineTerminator code points per ECMA-262. -/
def isJsWhitespace (c : Nat) : Bool :=
  decide (c = 0x9 ∨ c = 0xA ∨ c = 0xB ∨ c = 0xC ∨ c = 0xD ∨ c = 0x20 ∨
    c = 0xA0 ∨ c = 0x1680 ∨ (0x2000 ≤ c ∧ c ≤ 0x200A) ∨ c = 0x2028 ∨
    c = 0x2029 ∨ c = 0x202F ∨ c = 0x205F ∨ c = 0x3000 ∨ c = 0xFEFF)

/-- `String.prototype.trim`: remove leading and trailing whitespace. -/
def jsTrim (s : JStr) : JStr :=
  (s.dropWhile isJsWhitespace).rdropWhile isJsWhitespace

/-- `String.prototype.toLowerCase`, modelled per code point by the Unicode
simple lowercase mapping on Basic Latin and the Latin-1 supplement
(`A`–`Z` and `À`–`Þ` except `×` map 32 code points up); identity outside
that fragment. -/
def lowerChar (c : Nat) : Nat :=
  if 0x41 ≤ c ∧ c ≤ 0x5A then c + 0x20
  else if 0xC0 ≤ c ∧ c ≤ 0xDE ∧ c ≠ 0xD7 then c + 0x20
  else c

/-- The Unicode simple uppercase mapping on the same Latin fragment
(`a`–`z` and `à`–`þ` except `÷`); identity elsewhere.  Not part of the
program: it formalises "altered letter case" in the claims. -/
def upperChar (c : Nat) : Nat :=
  if 0x61 ≤ c ∧ c ≤ 0x7A then c - 0x20
  else if 0xE0 ≤ c ∧ c ≤ 0xFE ∧ c ≠ 0xF7 then c - 0x20
  else c

/-- Canonical (NFD) decompositions of the precomposed Latin-1 letters. -/
def latin1Decomp : List (Nat × JStr) :=
  [ (0xC0, [0x41, 0x300]), (0xC1, [0x41, 0x301]), (0xC2, [0x41, 0x302]),
    (0xC3, [0x41, 0x303]), (0xC4, [0x41, 0x308]), (0xC5, [0x41, 0x30A]),
    (0xC7, [0x43, 0x327]),
    (0xC8, [0x45, 0x300]), (0xC9, [0x45, 0x301]), (0xCA, [0x45, 0x302]),
    (0xCB, [0x45, 0x308]),
    (0xCC, [0x49, 0x300]), (0xCD, [0x49, 0x301]), (0xCE, [0x49, 0x302]),
    (0xCF, [0x49, 0x308]),
    (0xD1, [0x4E, 0x303]),
    (0xD2, [0x4F, 0x300]), (0xD3, [0x4F, 0x301]), (0xD4, [0x4F, 0x302]),
    (0xD5, [0x4F, 0x303]), (0xD6, [0x4F, 0x308]),
    (0xD9, [0x55, 0x300]), (0xDA, [0x55, 0x301]), (0xDB, [0x55, 0x302]),
    (0xDC, [0x55, 0x308]),
    (0xDD, [0x59, 0x301]),
    (0xE0, [0x61, 0x300]), (0xE1, [0x61, 0x301]), (0xE2, [0x61, 0x302]),
    (0xE3, [0x61, 0x303]), (0xE4, [0x61, 0x308]), (0xE5, [0x61, 0x30A]),
    (0xE7, [0x63, 0x327]),
    (0xE8, [0x65, 0x300]), (0xE9, [0x65, 0x301]), (0xEA, [0x65, 0x302]),
    (0xEB, [0x65, 0x308]),
    (0xEC, [0x69, 0x300]), (0xED, [0x69, 0x301]), (0xEE, [0x69, 0x302]),
    (0xEF, [0x69, 0x308]),
    (0xF1, [0x6E, 0x303]),
    (0xF2, [0x6F, 0x300]), (0xF3, [0x6F, 0x301]), (0xF4, [0x6F, 0x302]),
    (0xF5, [0x6F, 0x303]), (0xF6, [0x6F, 0x308]),
    (0xF9, [0x75, 0x300]), (0xFA, [0x75, 0x301]), (0xFB, [0x75, 0x302]),
    (0xFC, [0x75, 0x308]),
    (0xFD, [0x79, 0x301]), (0xFF, [0x79, 0x308]) ]

/-- Algorithmic NFD decomposition of a precomposed Hangul syllable
(U+AC00–U+D7A3) into its conjoining jamo, per UAX #15. -/
def hangulDecomp (c : Nat) : JStr :=
  if (c - 0xAC00) % 28 = 0 then
    [0x1100 + (c - 0xAC00) / 588, 0x1161 + ((c - 0xAC00) % 588) / 28]
  else
    [0x1100 + (c - 0xAC00) / 588, 0x1161 + ((c - 0xAC00) % 588) / 28,
      0x11A7 + (c - 0xAC00) % 28]

/-- `String.prototype.normalize('NFD')`, per code point: Hangul syllables
decompose algorithmically, precomposed Latin-1 letters by table, everything
else in the modelled fragment is canonically irreducible. -/
def nfdChar (c : Nat) : JStr :=
  if 0xAC00 ≤ c ∧ c ≤ 0xD7A3 then hangulDecomp c
  else
    match latin1Decomp.find? (fun p => p.fst == c) with
    | some p => p.snd
    | none => [c]

/-- NFD of a string: concatenation of the code-point decompositions. -/
def nfdStr : JStr → JStr
  | [] => []
  | c :: t => nfdChar c ++ nfdStr t

/-- The combining diacritical marks removed by
`.replace(/[̀-ͯ]/g, '')`. -/
def isCombiningMark (c : Nat) : Bool :=
  decide (0x300 ≤ c ∧ c ≤ 0x36F)

/-- The character class `[\p{L}\p{N}]` kept by
`.replace(/[^\p{L}\p{N}]/gu, '')`, on the modelled fragment:
ASCII digits and letters, Latin-1 letters, Hangul conjoining jamo and
precomposed Hangul syllables. -/
def isLetterOrDigit (c : Nat) : Bool :=
  decide ((0x30 ≤ c ∧ c ≤ 0x39) ∨ (0x41 ≤ c ∧ c ≤ 0x5A) ∨
    (0x61 ≤ c ∧ c ≤ 0x7A) ∨ (0xC0 ≤ c ∧ c ≤ 0xD6) ∨ (0xD8 ≤ c ∧ c ≤ 0xF6) ∨
    (0xF8 ≤ c ∧ c ≤ 0xFF) ∨ (0x1100 ≤ c ∧ c ≤ 0x11FF) ∨
    (0xAC00 ≤ c ∧ c ≤ 0xD7A3))

/-- `sanitizeText` from `local.js`: trim, lowercase, NFD-decompose, strip
the combining marks U+0300–U+036F, then remove every code point that is not
a letter or digit. -/
def sanitizeText (s : JStr) : JStr :=
  ((nfdStr ((jsTrim s).map lowerChar)).filter
      (fun c => !isCombiningMark c)).filter isLetterOrDigit

/-- The per-code-point action of `sanitizeText` after trimming. -/
def sanChar (c : Nat) : JStr :=
  ((nfdChar (lowerChar c)).filter (fun d => !isCombiningMark d)).filter
    isLetterOrDigit

/-- `sanitizeText` without the initial trim, as a concatenation
homomorphism. -/
def sanCore : JStr → JStr
  | [] => []
  | c :: t => sanChar c ++ sanCore t

/-- `MAX_ATTEMPTS` from `local.js`. -/
def MAX_ATTEMPTS : Nat := 3

/-- The four statistics counters kept in `localStorage`
(`currentStreak`, `maxStreak`, `totalAttempts`, `correctAnswers`). -/
structure Stats where
  currentStreak : Nat
  maxStreak : Nat
  totalAttempts : Nat
  correctAnswers : Nat
deriving Repr, DecidableEq

/-- `updateStats(isCorrect)` from `local.js`: increment `totalAttempts`;
if correct, increment `currentStreak` and `correctAnswers` and raise
`maxStreak` when the new `currentStreak` exceeds it; otherwise zero
`currentStreak`.  All four counters are read, updated, and written back as
one step. -/
def updateStats (isCorrect : Bool) (s : Stats) : Stats :=
  let totalAttempts := s.totalAttempts + 1
  if isCorrect then
    let currentStreak := s.currentStreak + 1
    let correctAnswers := s.correctAnswers + 1
    let maxStreak := if currentStreak > s.maxStreak then currentStreak else s.maxStreak
    { currentStreak, maxStreak, totalAttempts, correctAnswers }
  else
    { s with currentStreak := 0, totalAttempts }

/-- A dictionary entry (`{ korean, definition }` as produced by `parseCSV`
and `getRandomEntry`). -/
structure Entry where
  korean : JStr
  definition : JStr
deriving Repr, DecidableEq

/-- The `currentEntry` value in `localStorage`: either a JSON string that
parses back to an entry, or a string on which `JSON.parse` throws
(`CorruptPersistedState`). -/
inductive StoredRound where
  | valid (e : Entry)
  | corrupt
deriving Repr, DecidableEq

/-- `getCurrentOrNewEntry()` from `local.js`, with the random entry that
`getRandomEntry()` would produce injected as `fresh`.  Returns the entry to
play together with the updated stored value: a stored entry that parses is
returned unchanged; a missing or corrupt stored value is replaced by the
fresh entry, which is persisted (`localStorage.setItem`) and returned. -/
def getCurrentOrNewEntry (stored : Option StoredRound) (fresh : Entry) :
    Entry × Option StoredRound :=
  match stored with
  | some (StoredRound.valid e) => (e, some (StoredRound.valid e))
  | some StoredRound.corrupt => (fresh, some (StoredRound.valid fresh))
  | none => (fresh, some (StoredRound.valid fresh))

/-- `recordAttempt()` from `local.js`, acting on the stored
`currentAttempt` counter: increment only while below 3. -/
def recordAttempt (attempt : Nat) : Nat :=
  if attempt < 3 then attempt + 1 else attempt

/-- The game state touched by `checkAnswer`: the module-level
`romanizations` array, the attempt counter (the module-level
`currentAttempt` and the stored `currentAttempt`, which the code keeps in
lockstep through `updateAttemptDisplay`), the persisted `currentEntry`,
and the statistics counters. -/
structure GameState where
  romanizations : List JStr
  currentAttempt : Nat
  currentEntry : Option StoredRound
  stats : Stats
deriving Repr, DecidableEq

/-- The observable outcome of one `checkAnswer` call, following the
specification's vocabulary: `correct` is the `true` return (result-ok
shown), `incorrectRetry n` is the `false` return with the round still open
and `n = MAX_ATTEMPTS - currentAttempt` attempts left after the call, and
`incorrectExhausted a` is the `false` return on the final attempt, where
`a = romanizations[0]` is the answer shown by `correctAnswerShowOrHide`. -/
inductive Outcome where
  | correct
  | incorrectRetry (attemptsLeft : Nat)
  | incorrectExhausted (correctAnswer : JStr)
deriving Repr, DecidableEq

/-- `checkAnswer(input)` from `local.js`: sanitize the input; it is correct
iff it is non-empty and equals some sanitized romanization.  On correct:
clear the persisted entry, `updateStats(true)`, reset attempts to 1.  On
incorrect with `currentAttempt >= MAX_ATTEMPTS`: show `romanizations[0]`,
reset the streak, reset attempts, clear the persisted entry,
`updateStats(false)`.  Otherwise `recordAttempt()` increments the attempt
counter and the round stays open. -/
def checkAnswer (input : JStr) (st : GameState) : Outcome × GameState :=
  let si := sanitizeText input
  if si ≠ [] ∧ ∃ v ∈ st.romanizations, sanitizeText v = si then
    (Outcome.correct,
      { st with
          currentEntry := none
          stats := updateStats true st.stats
          currentAttempt := 1 })
  else if MAX_ATTEMPTS ≤ st.currentAttempt then
    (Outcome.incorrectExhausted (st.romanizations.headD []),
      { st with
          stats := updateStats false { st.stats with currentStreak := 0 }
          currentAttempt := 1
          currentEntry := none })
  else
    (Outcome.incorrectRetry (MAX_ATTEMPTS - recordAttempt st.currentAttempt),
      { st with currentAttempt := recordAttempt st.currentAttempt })


/-- Modelled from the spec: the difficulty setting
(`Settings.difficulty : enum{easy,normal,hard}`).  No difficulty setting or
pool filtering exists in `src/`; this and the following definitions follow
the spec's §4.2 wording. -/
inductive Difficulty where
  | easy
  | normal
  | hard
deriving Repr, DecidableEq

/-- Modelled from the spec: the `NoEntriesForDifficulty` signal (absent
from `src/`). -/
inductive RoundError where
  | noEntriesForDifficulty
deriving Repr, DecidableEq

/-- Modelled from the spec: native-script syllable count — the number of
characters of the word in the Hangul syllable block U+AC00–U+D7AF (absent
from `src/`). -/
def hangulSyllableCount (w : JStr) : Nat :=
  (w.filter fun c => decide (0xAC00 ≤ c ∧ c ≤ 0xD7AF)).length

/-- Modelled from the spec: pool selection — `normal` is the full
dictionary, `easy` keeps entries with exactly 2 syllables, `hard` keeps
entries with at least 3 (absent from `src/`). -/
def difficultyPool : Difficulty → List Entry → List Entry
  | Difficulty.normal, dict => dict
  | Difficulty.easy, dict =>
      dict.filter fun e => decide (hangulSyllableCount e.korean = 2)
  | Difficulty.hard, dict =>
      dict.filter fun e => decide (3 ≤ hangulSyllableCount e.korean)

/-- Modelled from the spec: `startRound`'s entry selection with the random
index injected — signal `NoEntriesForDifficulty` on an empty pool,
otherwise pick the entry at the random index (absent from `src/`). -/
def startRoundSelect (diff : Difficulty) (dict : List Entry) (idx : Nat) :
    Except RoundError Entry :=
  match difficultyPool diff dict with
  | [] => Except.error RoundError.noEntriesForDifficulty
  | e :: es => Except.ok ((e :: es).getD (idx % (e :: es).length) e)

/-- The code points of "annyeong", the RR romanization of 안녕. -/
def annyeong : JStr := [0x61, 0x6E, 0x6E, 0x79, 0x65, 0x6F, 0x6E, 0x67]

/-- A sample dictionary entry: 안녕 / "Hello". -/
def sampleEntry : Entry :=
  { korean := [0xC548, 0xB155], definition := [0x48, 0x65, 0x6C, 0x6C, 0x6F] }

/-- A sample three-syllable dictionary entry: 안녕하 (truncated sample). -/
def sampleHardEntry : Entry :=
  { korean := [0xC548, 0xB155, 0xD558], definition := [0x48, 0x69] }

/-- A sample active game state: one accepted answer "annyeong", first
attempt, a persisted round, and some statistics. -/
def sampleState : GameState :=
  { romanizations := [annyeong]
    currentAttempt := 1
    currentEntry := some (StoredRound.valid sampleEntry)
    stats := { currentStreak := 2, maxStreak := 5, totalAttempts := 10, correctAnswers := 6 } }


theorem sanCore_append (s t : JStr) : sanCore (s ++ t) = sanCore s ++ sanCore t := by
  induction s with
  | nil => rfl
  | cons c s ih => simp [sanCore, ih, List.append_assoc]

theorem sanCore_eq (s : JStr) :
    ((nfdStr (s.map lowerChar)).filter (fun c => !isCombiningMark c)).filter
      isLetterOrDigit = sanCore s := by
  induction s with
  | nil => rfl
  | cons c t ih => simp [nfdStr, sanCore, sanChar, List.filter_append, ih]

theorem latin1Decomp_keys :
    ∀ p ∈ latin1Decomp, 0xC0 ≤ p.fst ∧ p.fst ≤ 0xFF ∧ p.fst ≠ 0xD7 := by
  decide

theorem latin1Decomp_find?_none (c : Nat) (h : c < 0xC0 ∨ 0x100 ≤ c) :
    latin1Decomp.find? (fun p => p.fst == c) = none := by
  rw [List.find?_eq_none]
  intro x hx
  have hk := latin1Decomp_keys x hx
  simp only [beq_iff_eq]
  omega

theorem nfdChar_eq_self (c : Nat) (hh : ¬(0xAC00 ≤ c ∧ c ≤ 0xD7A3))
    (hf : c < 0xC0 ∨ 0x100 ≤ c) : nfdChar c = [c] := by
  simp only [nfdChar, if_neg hh, latin1Decomp_find?_none c hf]

theorem lowerChar_eq_self (c : Nat) (h1 : ¬(0x41 ≤ c ∧ c ≤ 0x5A))
    (h2 : ¬(0xC0 ≤ c ∧ c ≤ 0xDE ∧ c ≠ 0xD7)) : lowerChar c = c := by
  simp only [lowerChar, if_neg h1, if_neg h2]

theorem lowerChar_not_upper (c : Nat) :
    ¬(0x41 ≤ lowerChar c ∧ lowerChar c ≤ 0x5A) ∧
    ¬(0xC0 ≤ lowerChar c ∧ lowerChar c ≤ 0xDE ∧ lowerChar c ≠ 0xD7) := by
  unfold lowerChar
  split_ifs <;> omega

theorem lowerChar_idem (c : Nat) : lowerChar (lowerChar c) = lowerChar c := by
  have h := lowerChar_not_upper c
  exact lowerChar_eq_self _ h.1 h.2

theorem sanChar_ws (c : Nat) (h : isJsWhitespace c = true) : sanChar c = [] := by
  have hc : c = 0x9 ∨ c = 0xA ∨ c = 0xB ∨ c = 0xC ∨ c = 0xD ∨ c = 0x20 ∨
      c = 0xA0 ∨ c = 0x1680 ∨ (0x2000 ≤ c ∧ c ≤ 0x200A) ∨ c = 0x2028 ∨
      c = 0x2029 ∨ c = 0x202F ∨ c = 0x205F ∨ c = 0x3000 ∨ c = 0xFEFF := by
    simpa [isJsWhitespace] using h
  have hl : lowerChar c = c := lowerChar_eq_self c (by omega) (by omega)
  have hn : nfdChar c = [c] := nfdChar_eq_self c (by omega) (by omega)
  have hld : isLetterOrDigit c = false := by
    simp only [isLetterOrDigit, decide_eq_false_iff_not]
    omega
  simp [sanChar, hl, hn, List.filter_cons, hld]

theorem sanCore_of_forall_nil (s : JStr) (h : ∀ c ∈ s, sanChar c = []) :
    sanCore s = [] := by
  induction s with
  | nil => rfl
  | cons c t ih =>
    simp only [sanCore, h c (List.mem_cons_self c t), List.nil_append]
    exact ih fun d hd => h d (List.mem_cons_of_mem _ hd)

theorem sanCore_dropWhile_ws (s : JStr) :
    sanCore (s.dropWhile isJsWhitespace) = sanCore s := by
  induction s with
  | nil => rfl
  | cons c t ih =>
    by_cases hc : isJsWhitespace c = true
    · rw [List.dropWhile_cons_of_pos hc, ih]
      simp [sanCore, sanChar_ws c hc]
    · rw [List.dropWhile_cons_of_neg hc]

theorem rdropWhile_append_rtakeWhile (p : Nat → Bool) (l : JStr) :
    l.rdropWhile p ++ l.rtakeWhile p = l := by
  rw [List.rdropWhile, List.rtakeWhile, ← List.reverse_append,
    List.takeWhile_append_dropWhile, List.reverse_reverse]

theorem sanCore_rdropWhile_ws (s : JStr) :
    sanCore (s.rdropWhile isJsWhitespace) = sanCore s := by
  conv_rhs => rw [← rdropWhile_append_rtakeWhile isJsWhitespace s]
  rw [sanCore_append]
  have : sanCore (s.rtakeWhile isJsWhitespace) = [] :=
    sanCore_of_forall_nil _ fun c hc => sanChar_ws c (List.mem_rtakeWhile_imp hc)
  simp [this]

theorem sanitizeText_eq_sanCore (s : JStr) : sanitizeText s = sanCore s := by
  rw [sanitizeText, sanCore_eq, jsTrim, sanCore_rdropWhile_ws, sanCore_dropWhile_ws]

theorem sanChar_combining (c : Nat) (h : isCombiningMark c = true) :
    sanChar c = [] := by
  have hc : 0x300 ≤ c ∧ c ≤ 0x36F := by simpa [isCombiningMark] using h
  have hl : lowerChar c = c := lowerChar_eq_self c (by omega) (by omega)
  have hn : nfdChar c = [c] := nfdChar_eq_self c (by omega) (by omega)
  simp [sanChar, hl, hn, List.filter_cons, h]

theorem lowerChar_upperChar (c : Nat) : lowerChar (upperChar c) = lowerChar c := by
  unfold upperChar lowerChar
  split_ifs <;> omega

theorem sanChar_upper (c : Nat) : sanChar (upperChar c) = sanChar c := by
  simp only [sanChar, lowerChar_upperChar]

theorem latin1Decomp_lower_entries :
    ∀ p ∈ latin1Decomp, 0xDF ≤ p.fst → ∀ d ∈ p.snd,
      lowerChar d = d ∧ nfdChar d = [d] := by
  decide

theorem sanChar_mem_fix {c d : Nat} (hd : d ∈ sanChar c) : sanChar d = [d] := by
  simp only [sanChar, List.mem_filter] at hd
  obtain ⟨⟨hmem, hcomb⟩, hld⟩ := hd
  by_cases hh : 0xAC00 ≤ lowerChar c ∧ lowerChar c ≤ 0xD7A3
  · rw [nfdChar, if_pos hh] at hmem
    have hrange : 0x1100 ≤ d ∧ d ≤ 0x11C2 := by
      unfold hangulDecomp at hmem
      split at hmem <;> simp only [List.mem_cons, List.not_mem_nil, or_false] at hmem <;>
        omega
    have hl2 : lowerChar d = d := lowerChar_eq_self d (by omega) (by omega)
    have hn2 : nfdChar d = [d] := nfdChar_eq_self d (by omega) (by omega)
    simp [sanChar, hl2, hn2, List.filter_cons, hcomb, hld]
  · rw [nfdChar, if_neg hh] at hmem
    rcases hfind : latin1Decomp.find? (fun p => p.fst == lowerChar c) with _ | p
    · rw [hfind] at hmem
      simp only [List.mem_cons, List.not_mem_nil, or_false] at hmem
      subst hmem
      have hn2 : nfdChar (lowerChar c) = [lowerChar c] := by
        rw [nfdChar, if_neg hh, hfind]
      simp [sanChar, lowerChar_idem, hn2, List.filter_cons, hcomb, hld]
    · rw [hfind] at hmem
      have hp := List.mem_of_find?_eq_some hfind
      have hkey : p.fst = lowerChar c := by
        have := List.find?_some hfind
        simpa using this
      have hnu := lowerChar_not_upper c
      have hkb := latin1Decomp_keys p hp
      have hge : 0xDF ≤ p.fst := by omega
      obtain ⟨hl2, hn2⟩ := latin1Decomp_lower_entries p hp hge d hmem
      simp [sanChar, hl2, hn2, List.filter_cons, hcomb, hld]

theorem sanCore_fix (s : JStr) (h : ∀ d ∈ s, sanChar d = [d]) : sanCore s = s := by
  induction s with
  | nil => rfl
  | cons c t ih =>
    rw [sanCore, h c (List.mem_cons_self c t),
      ih fun d hd => h d (List.mem_cons_of_mem _ hd)]
    rfl

theorem sanCore_idem (s : JStr) : sanCore (sanCore s) = sanCore s := by
  induction s with
  | nil => rfl
  | cons c t ih =>
    rw [sanCore, sanCore_append, ih,
      sanCore_fix (sanChar c) fun d hd => sanChar_mem_fix hd]

theorem sanCore_map_upper (s : JStr) : sanCore (s.map upperChar) = sanCore s := by
  induction s with
  | nil => rfl
  | cons c t ih => rw [List.map_cons, sanCore, sanChar_upper, ih, sanCore]

theorem sanCore_erase_marks (s : JStr) :
    sanCore (s.filter fun c => !isCombiningMark c) = sanCore s := by
  induction s with
  | nil => rfl
  | cons c t ih =>
    by_cases hc : isCombiningMark c = true
    · rw [List.filter_cons_of_neg (by simp [hc]), ih, sanCore,
        sanChar_combining c hc, List.nil_append]
    · rw [List.filter_cons_of_pos (by simp [hc]), sanCore, ih, sanCore]

theorem checkAnswer_hit (st : GameState) (input : JStr)
    (h : sanitizeText input ≠ [] ∧
      ∃ v ∈ st.romanizations, sanitizeText v = sanitizeText input) :
    checkAnswer input st =
      (Outcome.correct,
        { st with
            currentEntry := none
            stats := updateStats true st.stats
            currentAttempt := 1 }) := by
  simp only [checkAnswer, if_pos h]

theorem checkAnswer_miss_retry (st : GameState) (input : JStr)
    (h : ¬(sanitizeText input ≠ [] ∧
      ∃ v ∈ st.romanizations, sanitizeText v = sanitizeText input))
    (hlt : st.currentAttempt < MAX_ATTEMPTS) :
    checkAnswer input st =
      (Outcome.incorrectRetry (MAX_ATTEMPTS - (st.currentAttempt + 1)),
        { st with currentAttempt := st.currentAttempt + 1 }) := by
  have hrec : recordAttempt st.currentAttempt = st.currentAttempt + 1 := by
    unfold recordAttempt MAX_ATTEMPTS at *
    rw [if_pos hlt]
  simp only [checkAnswer, if_neg h, if_neg (Nat.not_le.mpr hlt), hrec]

theorem checkAnswer_miss_final (st : GameState) (input : JStr)
    (h : ¬(sanitizeText input ≠ [] ∧
      ∃ v ∈ st.romanizations, sanitizeText v = sanitizeText input))
    (hge : MAX_ATTEMPTS ≤ st.currentAttempt) :
    checkAnswer input st =
      (Outcome.incorrectExhausted (st.romanizations.headD []),
        { st with
            stats := updateStats false { st.stats with currentStreak := 0 }
            currentAttempt := 1
            currentEntry := none }) := by
  simp only [checkAnswer, if_neg h, if_pos hge]

theorem checkAnswer_fst_correct_iff (st : GameState) (input : JStr) :
    (checkAnswer input st).fst = Outcome.correct ↔
      (sanitizeText input ≠ [] ∧
        ∃ v ∈ st.romanizations, sanitizeText v = sanitizeText input) := by
  by_cases h : sanitizeText input ≠ [] ∧
      ∃ v ∈ st.romanizations, sanitizeText v = sanitizeText input
  · rw [checkAnswer_hit st input h]
    simpa using h
  · by_cases hge : MAX_ATTEMPTS ≤ st.currentAttempt
    · rw [checkAnswer_miss_final st input h hge]
      simpa using h
    · rw [checkAnswer_miss_retry st input h (Nat.not_le.mp hge)]
      simpa using h

theorem sanitizeText_ws_pad (ws1 ws2 x : JStr)
    (h1 : ∀ c ∈ ws1, isJsWhitespace c = true)
    (h2 : ∀ c ∈ ws2, isJsWhitespace c = true) :
    sanitizeText (ws1 ++ x ++ ws2) = sanitizeText x := by
  rw [sanitizeText_eq_sanCore, sanitizeText_eq_sanCore, sanCore_append,
    sanCore_append, sanCore_of_forall_nil ws1 fun c hc => sanChar_ws c (h1 c hc),
    sanCore_of_forall_nil ws2 fun c hc => sanChar_ws c (h2 c hc)]
  simp

theorem sanitizeText_map_upper (x : JStr) :
    sanitizeText (x.map upperChar) = sanitizeText x := by
  rw [sanitizeText_eq_sanCore, sanitizeText_eq_sanCore, sanCore_map_upper]

theorem sanitizeText_erase_marks (b : JStr) :
    sanitizeText b = sanitizeText (b.filter fun c => !isCombiningMark c) := by
  rw [sanitizeText_eq_sanCore, sanitizeText_eq_sanCore, sanCore_erase_marks]

theorem updateStats_true_eq (s : Stats) :
    updateStats true s =
      { currentStreak := s.currentStreak + 1
        maxStreak := max s.maxStreak (s.currentStreak + 1)
        totalAttempts := s.totalAttempts + 1
        correctAnswers := s.correctAnswers + 1 } := by
  simp only [updateStats, if_true]
  split_ifs <;> simp [Stats.mk.injEq] <;> omega

theorem updateStats_false_eq (s : Stats) :
    updateStats false s =
      { currentStreak := 0
        maxStreak := s.maxStreak
        totalAttempts := s.totalAttempts + 1
        correctAnswers := s.correctAnswers } := by
  simp [updateStats]

/-- **C4.** `updateStats` increments `totalAttempts` by exactly 1
unconditionally; on a correct outcome it increments `currentStreak` and
`correctAnswers` by 1 and sets `maxStreak` to the maximum of the old
`maxStreak` and the new `currentStreak`; on an incorrect outcome it zeroes
`currentStreak` and leaves `maxStreak` and `correctAnswers` unchanged. -/
theorem updateStats_spec (s : Stats) :
    updateStats true s =
      { currentStreak := s.currentStreak + 1
        maxStreak := max s.maxStreak (s.currentStreak + 1)
        totalAttempts := s.totalAttempts + 1
        correctAnswers := s.correctAnswers + 1 } ∧
    updateStats false s =
      { currentStreak := 0
        maxStreak := s.maxStreak
        totalAttempts := s.totalAttempts + 1
        correctAnswers := s.correctAnswers } :=
  ⟨updateStats_true_eq s, updateStats_false_eq s⟩

/-- **C5.** After every `updateStats` call `maxStreak ≥ currentStreak`
holds; `updateStats true` raises `maxStreak` to `currentStreak + 1` exactly
when that exceeds the old `maxStreak` and leaves it unchanged otherwise,
and `maxStreak` never decreases. -/
theorem updateStats_maxStreak_monotone (s : Stats) (b : Bool) :
    (updateStats b s).currentStreak ≤ (updateStats b s).maxStreak ∧
    (s.maxStreak < s.currentStreak + 1 →
      (updateStats true s).maxStreak = s.currentStreak + 1) ∧
    (s.currentStreak + 1 ≤ s.maxStreak →
      (updateStats true s).maxStreak = s.maxStreak) ∧
    s.maxStreak ≤ (updateStats b s).maxStreak := by
  cases b <;> simp [updateStats_true_eq, updateStats_false_eq] <;> omega

/-- **C5 (witness).** Instance of the `maxStreak` behaviour at a concrete
statistics state with `maxStreak < currentStreak + 1`. -/
theorem updateStats_maxStreak_monotone_witness :
    (updateStats true ⟨5, 3, 10, 6⟩).currentStreak ≤
      (updateStats true ⟨5, 3, 10, 6⟩).maxStreak ∧
    (updateStats true ⟨5, 3, 10, 6⟩).maxStreak = 6 ∧
    (3 : Nat) ≤ (updateStats true ⟨5, 3, 10, 6⟩).maxStreak :=
  ⟨(updateStats_maxStreak_monotone ⟨5, 3, 10, 6⟩ true).1,
   (updateStats_maxStreak_monotone ⟨5, 3, 10, 6⟩ true).2.1 (by decide),
   (updateStats_maxStreak_monotone ⟨5, 3, 10, 6⟩ true).2.2.2⟩

/-- **C10.** `updateStats` preserves `correctAnswers ≤ totalAttempts`
(`totalAttempts` grows by exactly 1, `correctAnswers` by at most 1), so the
displayed win rate never exceeds 100%. -/
theorem updateStats_winRate_le_one (s : Stats) (b : Bool)
    (h : s.correctAnswers ≤ s.totalAttempts) :
    (updateStats b s).correctAnswers ≤ (updateStats b s).totalAttempts ∧
    (updateStats b s).totalAttempts = s.totalAttempts + 1 ∧
    (updateStats b s).correctAnswers ≤ s.correctAnswers + 1 := by
  cases b <;> simp [updateStats_true_eq, updateStats_false_eq] <;> omega

/-- **C10 (witness).** Instance of win-rate preservation at a concrete
statistics state. -/
theorem updateStats_winRate_le_one_witness :
    (updateStats true ⟨2, 5, 10, 6⟩).correctAnswers ≤
      (updateStats true ⟨2, 5, 10, 6⟩).totalAttempts ∧
    (updateStats true ⟨2, 5, 10, 6⟩).totalAttempts = 11 ∧
    (updateStats true ⟨2, 5, 10, 6⟩).correctAnswers ≤ 7 :=
  updateStats_winRate_le_one ⟨2, 5, 10, 6⟩ true (by decide)

/-- **C8.** A persisted round value on which `JSON.parse` throws is
discarded without propagating any error: `getCurrentOrNewEntry` returns the
fresh random entry and persists it. -/
theorem corrupt_persisted_round_recovered (fresh : Entry) :
    getCurrentOrNewEntry (some StoredRound.corrupt) fresh =
      (fresh, some (StoredRound.valid fresh)) := rfl

/-- **C9.** The normalizer `sanitizeText` is idempotent. -/
theorem sanitizeText_idempotent (s : JStr) :
    sanitizeText (sanitizeText s) = sanitizeText s := by
  simp only [sanitizeText_eq_sanCore, sanCore_idem]

/-- **C1 (counterexample).** At a concrete active round on its first
attempt, submitting the empty string yields `IncorrectRetry(1)` — not the
pre-call `attemptsLeft` of 2 — and the attempt counter increments from 1
to 2: the claim that an empty submission never consumes an attempt is
false for this code. -/
theorem checkAnswer_empty_consumes_attempt_cex :
    (checkAnswer [] sampleState).fst = Outcome.incorrectRetry 1 ∧
    sampleState.currentAttempt = 1 ∧
    MAX_ATTEMPTS - sampleState.currentAttempt = 2 ∧
    (checkAnswer [] sampleState).snd.currentAttempt = 2 := by decide

/-- **C1 (amended).** An input whose sanitized form is empty never matches
any accepted answer, but it is handled like every other incorrect guess:
while `currentAttempt < MAX_ATTEMPTS` the attempt counter increments and
the result is `IncorrectRetry(MAX_ATTEMPTS - newAttempt)` (statistics and
persisted round untouched); at `currentAttempt = MAX_ATTEMPTS` the round
resolves with `IncorrectExhausted`. -/
theorem checkAnswer_empty_input (st : GameState) (input : JStr)
    (hempty : sanitizeText input = []) :
    (st.currentAttempt < MAX_ATTEMPTS →
      checkAnswer input st =
        (Outcome.incorrectRetry (MAX_ATTEMPTS - (st.currentAttempt + 1)),
          { st with currentAttempt := st.currentAttempt + 1 })) ∧
    (MAX_ATTEMPTS ≤ st.currentAttempt →
      (checkAnswer input st).fst =
        Outcome.incorrectExhausted (st.romanizations.headD [])) := by
  have hnc : ¬(sanitizeText input ≠ [] ∧
      ∃ v ∈ st.romanizations, sanitizeText v = sanitizeText input) := by
    simp [hempty]
  exact ⟨fun hlt => checkAnswer_miss_retry st input hnc hlt,
    fun hge => by rw [checkAnswer_miss_final st input hnc hge]⟩

/-- **C1 (witness).** The amended behaviour at a concrete state and the
whitespace-only input `" "`. -/
theorem checkAnswer_empty_input_witness :
    (sampleState.currentAttempt < MAX_ATTEMPTS →
      checkAnswer [0x20] sampleState =
        (Outcome.incorrectRetry (MAX_ATTEMPTS - (sampleState.currentAttempt + 1)),
          { sampleState with currentAttempt := sampleState.currentAttempt + 1 })) ∧
    (MAX_ATTEMPTS ≤ sampleState.currentAttempt →
      (checkAnswer [0x20] sampleState).fst =
        Outcome.incorrectExhausted (sampleState.romanizations.headD [])) :=
  checkAnswer_empty_input sampleState [0x20] (by decide)

/-- **C2.** `checkAnswer` returns `Correct` iff the sanitized input is
non-empty and equals the sanitized form of at least one member of the
accepted-answer list (any transliteration scheme); in particular an
accepted answer with altered letter case, surrounding whitespace, or
added combining diacritics is always accepted. -/
theorem checkAnswer_correct_iff_any_romanization :
    (∀ (st : GameState) (input : JStr),
      (checkAnswer input st).fst = Outcome.correct ↔
        (sanitizeText input ≠ [] ∧
          ∃ v ∈ st.romanizations, sanitizeText v = sanitizeText input)) ∧
    (∀ (st : GameState) (a ws1 ws2 : JStr), a ∈ st.romanizations →
      sanitizeText a ≠ [] →
      (∀ c ∈ ws1, isJsWhitespace c = true) →
      (∀ c ∈ ws2, isJsWhitespace c = true) →
      (checkAnswer (ws1 ++ a.map upperChar ++ ws2) st).fst = Outcome.correct) ∧
    (∀ (st : GameState) (a b : JStr), a ∈ st.romanizations →
      sanitizeText a ≠ [] →
      b.filter (fun c => !isCombiningMark c) = a →
      (checkAnswer b st).fst = Outcome.correct) := by
  refine ⟨checkAnswer_fst_correct_iff, ?_, ?_⟩
  · intro st a ws1 ws2 ha hne h1 h2
    rw [checkAnswer_fst_correct_iff, sanitizeText_ws_pad ws1 ws2 _ h1 h2,
      sanitizeText_map_upper]
    exact ⟨hne, a, ha, rfl⟩
  · intro st a b ha hne hb
    rw [checkAnswer_fst_correct_iff, sanitizeText_erase_marks b, hb]
    exact ⟨hne, a, ha, rfl⟩

/-- **C2 (witness).** At a concrete round accepting "annyeong":
`" ANNYEONG "` (uppercased, whitespace-padded) and "annye□ong" with a
combining acute accent inserted (U+0301) are both accepted. -/
theorem checkAnswer_correct_iff_any_romanization_witness :
    (checkAnswer ([0x20] ++ annyeong.map upperChar ++ [0x20]) sampleState).fst
      = Outcome.correct ∧
    (checkAnswer [0x61, 0x6E, 0x6E, 0x79, 0x65, 0x301, 0x6F, 0x6E, 0x67]
      sampleState).fst = Outcome.correct :=
  ⟨checkAnswer_correct_iff_any_romanization.2.1 sampleState annyeong [0x20] [0x20]
      (by decide) (by decide) (by decide) (by decide),
   checkAnswer_correct_iff_any_romanization.2.2 sampleState annyeong
      [0x61, 0x6E, 0x6E, 0x79, 0x65, 0x301, 0x6F, 0x6E, 0x67]
      (by decide) (by decide) (by decide)⟩

/-- **C3.** From `attempt = 1`, three consecutive submissions of an input
matching no accepted answer yield `IncorrectRetry(1)`, `IncorrectRetry(0)`,
then `IncorrectExhausted` carrying the first accepted answer; the streak
and the persisted round are untouched by the first two submissions, and
after the third the streak is 0 and the persisted round is cleared. -/
theorem three_wrong_submissions (st : GameState) (input : JStr)
    (hstart : st.currentAttempt = 1)
    (hmiss : ∀ v ∈ st.romanizations, sanitizeText v ≠ sanitizeText input) :
    (checkAnswer input st).fst = Outcome.incorrectRetry 1 ∧
    (checkAnswer input (checkAnswer input st).snd).fst =
      Outcome.incorrectRetry 0 ∧
    (checkAnswer input (checkAnswer input (checkAnswer input st).snd).snd).fst
      = Outcome.incorrectExhausted (st.romanizations.headD []) ∧
    (checkAnswer input st).snd.stats = st.stats ∧
    (checkAnswer input st).snd.currentEntry = st.currentEntry ∧
    (checkAnswer input (checkAnswer input st).snd).snd.stats = st.stats ∧
    (checkAnswer input (checkAnswer input st).snd).snd.currentEntry
      = st.currentEntry ∧
    (checkAnswer input (checkAnswer input (checkAnswer input st).snd).snd).snd.stats.currentStreak
      = 0 ∧
    (checkAnswer input (checkAnswer input (checkAnswer input st).snd).snd).snd.currentEntry
      = none := by
  have hnc : ∀ t : GameState, t.romanizations = st.romanizations →
      ¬(sanitizeText input ≠ [] ∧
        ∃ v ∈ t.romanizations, sanitizeText v = sanitizeText input) := by
    intro t ht hcontra
    obtain ⟨-, v, hv, he⟩ := hcontra
    exact hmiss v (ht ▸ hv) he
  have h1 : checkAnswer input st =
      (Outcome.incorrectRetry 1, { st with currentAttempt := 2 }) := by
    have h := checkAnswer_miss_retry st input (hnc st rfl)
      (by unfold MAX_ATTEMPTS; omega)
    rw [h, hstart]
    rfl
  have h2 : checkAnswer input { st with currentAttempt := 2 } =
      (Outcome.incorrectRetry 0, { st with currentAttempt := 3 }) := by
    have h := checkAnswer_miss_retry { st with currentAttempt := 2 } input
      (hnc _ rfl) (by simp [MAX_ATTEMPTS])
    rw [h]
    rfl
  have h3 : checkAnswer input { st with currentAttempt := 3 } =
      (Outcome.incorrectExhausted (st.romanizations.headD []),
        { st with
            stats := updateStats false { st.stats with currentStreak := 0 }
            currentAttempt := 1
            currentEntry := none }) := by
    have h := checkAnswer_miss_final { st with currentAttempt := 3 } input
      (hnc _ rfl) (by simp [MAX_ATTEMPTS])
    rw [h]
  rw [h1]
  simp only [h2, h3]
  simp [updateStats]

/-- **C3 (witness).** The three-submission trace at a concrete round
accepting "annyeong", submitting "b" three times. -/
theorem three_wrong_submissions_witness :
    (checkAnswer [0x62] sampleState).fst = Outcome.incorrectRetry 1 ∧
    (checkAnswer [0x62] (checkAnswer [0x62] sampleState).snd).fst =
      Outcome.incorrectRetry 0 ∧
    (checkAnswer [0x62] (checkAnswer [0x62] (checkAnswer [0x62] sampleState).snd).snd).fst
      = Outcome.incorrectExhausted (sampleState.romanizations.headD []) ∧
    (checkAnswer [0x62] sampleState).snd.stats = sampleState.stats ∧
    (checkAnswer [0x62] sampleState).snd.currentEntry = sampleState.currentEntry ∧
    (checkAnswer [0x62] (checkAnswer [0x62] sampleState).snd).snd.stats
      = sampleState.stats ∧
    (checkAnswer [0x62] (checkAnswer [0x62] sampleState).snd).snd.currentEntry
      = sampleState.currentEntry ∧
    (checkAnswer [0x62] (checkAnswer [0x62] (checkAnswer [0x62] sampleState).snd).snd).snd.stats.currentStreak
      = 0 ∧
    (checkAnswer [0x62] (checkAnswer [0x62] (checkAnswer [0x62] sampleState).snd).snd).snd.currentEntry
      = none :=
  three_wrong_submissions sampleState [0x62] (by decide) (by decide)

/-- **C6.** A valid persisted round is returned unchanged by
`getCurrentOrNewEntry`; a resolving submission (correct or exhausted)
clears the persisted round, and with no persisted round
`getCurrentOrNewEntry` persists and returns the fresh random entry. -/
theorem persisted_round_resume_and_clear :
    (∀ e fresh : Entry,
      getCurrentOrNewEntry (some (StoredRound.valid e)) fresh =
        (e, some (StoredRound.valid e))) ∧
    (∀ (st : GameState) (input : JStr),
      ((checkAnswer input st).fst = Outcome.correct ∨
        ∃ a, (checkAnswer input st).fst = Outcome.incorrectExhausted a) →
      (checkAnswer input st).snd.currentEntry = none) ∧
    (∀ fresh : Entry,
      getCurrentOrNewEntry none fresh = (fresh, some (StoredRound.valid fresh))) := by
  refine ⟨fun e fresh => rfl, ?_, fun fresh => rfl⟩
  intro st input hres
  by_cases h : sanitizeText input ≠ [] ∧
      ∃ v ∈ st.romanizations, sanitizeText v = sanitizeText input
  · rw [checkAnswer_hit st input h]
  · by_cases hge : MAX_ATTEMPTS ≤ st.currentAttempt
    · rw [checkAnswer_miss_final st input h hge]
    · rw [checkAnswer_miss_retry st input h (Nat.not_le.mp hge)] at hres
      simp at hres

/-- **C6 (witness).** A concrete correct submission clears the persisted
round. -/
theorem persisted_round_resume_and_clear_witness :
    (checkAnswer annyeong sampleState).snd.currentEntry = none :=
  persisted_round_resume_and_clear.2.1 sampleState annyeong (Or.inl (by decide))

/-- **C7.** (Modelled from the spec — no difficulty filtering exists in
`src/`.)  The `easy` pool holds only entries with exactly 2 Hangul
syllables, the `hard` pool only entries with at least 3, `normal` is the
full dictionary; a selected round always comes from the pool of the chosen
difficulty, and an empty filtered pool signals `NoEntriesForDifficulty`
with no round selected. -/
theorem startRound_difficulty_pool (dict : List Entry) (idx : Nat) :
    difficultyPool Difficulty.normal dict = dict ∧
    (∀ e ∈ difficultyPool Difficulty.easy dict,
      hangulSyllableCount e.korean = 2 ∧ e ∈ dict) ∧
    (∀ e ∈ difficultyPool Difficulty.hard dict,
      3 ≤ hangulSyllableCount e.korean ∧ e ∈ dict) ∧
    (∀ (diff : Difficulty) (r : Entry),
      startRoundSelect diff dict idx = Except.ok r →
      r ∈ difficultyPool diff dict) ∧
    (∀ diff : Difficulty, difficultyPool diff dict = [] →
      startRoundSelect diff dict idx =
        Except.error RoundError.noEntriesForDifficulty) := by
  refine ⟨rfl, ?_, ?_, ?_, ?_⟩
  · intro e he
    simp only [difficultyPool, List.mem_filter, decide_eq_true_eq] at he
    exact ⟨he.2, he.1⟩
  · intro e he
    simp only [difficultyPool, List.mem_filter, decide_eq_true_eq] at he
    exact ⟨he.2, he.1⟩
  · intro diff r hr
    unfold startRoundSelect at hr
    cases hp : difficultyPool diff dict with
    | nil => rw [hp] at hr; exact absurd hr (by simp)
    | cons e es =>
      rw [hp] at hr
      simp only [Except.ok.injEq] at hr
      have hlt : idx % (e :: es).length < (e :: es).length :=
        Nat.mod_lt _ (by simp)
      rw [← hr, List.getD_eq_getElem?_getD, List.getElem?_eq_getElem hlt,
        Option.getD_some]
      exact List.getElem_mem hlt
  · intro diff hempty
    unfold startRoundSelect
    rw [hempty]

/-- **C7 (witness).** At a concrete dictionary: the two-syllable entry is
the `easy` pool member, the three-syllable entry the `hard` pool member,
and a dictionary with no ≥3-syllable word yields `NoEntriesForDifficulty`
on `hard`. -/
theorem startRound_difficulty_pool_witness :
    (hangulSyllableCount sampleEntry.korean = 2 ∧
      sampleEntry ∈ [sampleEntry, sampleHardEntry]) ∧
    (3 ≤ hangulSyllableCount sampleHardEntry.korean ∧
      sampleHardEntry ∈ [sampleEntry, sampleHardEntry]) ∧
    startRoundSelect Difficulty.hard [sampleEntry] 0 =
      Except.error RoundError.noEntriesForDifficulty :=
  ⟨(startRound_difficulty_pool [sampleEntry, sampleHardEntry] 0).2.1
      sampleEntry (by decide),
   (startRound_difficulty_pool [sampleEntry, sampleHardEntry] 0).2.2.1
      sampleHardEntry (by decide),
   (startRound_difficulty_pool [sampleEntry] 0).2.2.2.2
      Difficulty.hard (by decide)⟩
